import Mathlib

/-!
# Verification of the GeminiCLI Tauri bridge (`src/GeminiGUI/src-tauri/src/lib.rs`)

Shallow embedding of the persistent-store commands (approval queue, agent
memory log, knowledge graph) and of the two streaming decoders
(`prompt_ollama_stream`, `prompt_gemini_stream`).

Modelling conventions:
* Rust `f32` importance values are modelled as rationals (`ℚ`); the source
  clamps importance into `[0,1]`, so no NaN/infinity behaviour is relevant
  to the properties proved here.
* Rust `String::len` counts UTF-8 bytes, modelled by `String.utf8ByteSize`.
* Rust `str::to_lowercase` is modelled by `String.toLower` (the agent names
  in all properties are ASCII).
* Rust `Vec::sort_by(cmp)` is a stable sort ascending w.r.t. `cmp`; it is
  modelled by `List.mergeSort le` with `le a b := (cmp a b ≠ .gt)`.
* The file-backed state is threaded explicitly: a `*_cmd` function takes the
  current file contents and a `saveErr : Option String` describing the
  outcome of the `write_*` call (`none` = success, `some e` = I/O error
  message) and returns the pair (value returned to the caller, file
  contents after the command).  The `?` operator on `write_*` in the source
  propagates a save error to the caller and leaves the file unchanged.
-/

/-- Normalized streaming event `StreamPayload` with fields `chunk` and `done`. -/
structure StreamPayload where
  chunk : String
  done : Bool
deriving DecidableEq, Repr

/-- Approval-queue request `BridgeRequest` with id, message and status. -/
structure BridgeRequest where
  id : String
  message : String
  status : String
deriving DecidableEq, Repr

/-- Contents of `bridge.json`: `BridgeData` (requests, auto_approve). -/
structure BridgeData where
  requests : List BridgeRequest
  auto_approve : Bool
deriving DecidableEq, Repr

/-- Agent memory record `MemoryEntry`; `importance : f32` modelled as `ℚ`. -/
structure MemoryEntry where
  id : String
  agent : String
  content : String
  timestamp : Int
  importance : ℚ
deriving DecidableEq

/-- Knowledge-graph node `KnowledgeNode` (id, type, label). -/
structure KnowledgeNode where
  id : String
  node_type : String
  label : String
deriving DecidableEq, Repr

/-- Knowledge-graph edge `KnowledgeEdge` (source, target, label). -/
structure KnowledgeEdge where
  source : String
  target : String
  label : String
deriving DecidableEq, Repr

/-- Knowledge graph `KnowledgeGraph` (nodes, edges). -/
structure KnowledgeGraph where
  nodes : List KnowledgeNode
  edges : List KnowledgeEdge
deriving DecidableEq, Repr

/-- Contents of `agent_memory.json`: `MemoryStore` (memories, graph). -/
structure MemoryStore where
  memories : List MemoryEntry
  graph : KnowledgeGraph
deriving DecidableEq

/-- Default store, `MemoryStore::default()`. -/
def MemoryStore.empty : MemoryStore := { memories := [], graph := { nodes := [], edges := [] } }

/-- Rust `f32::clamp(lo, hi)` on the rational model. -/
def clampQ (x lo hi : ℚ) : ℚ := if x < lo then lo else if x > hi then hi else x

/-- The ordering induced by the comparator `|a, b| b.timestamp.cmp(&a.timestamp)`
used in `add_agent_memory` (timestamp descending): `a` may precede `b` iff the
comparator does not answer `Greater`.  Rust `Vec::sort_by` is a stable sort
w.r.t. its comparator; it is modelled by the (stable) `List.insertionSort`. -/
def tsDescRel (a b : MemoryEntry) : Prop := b.timestamp ≤ a.timestamp

instance : DecidableRel tsDescRel := fun a b => by unfold tsDescRel; infer_instance

instance : IsTotal MemoryEntry tsDescRel :=
  ⟨fun a b => le_total b.timestamp a.timestamp⟩

instance : IsTrans MemoryEntry tsDescRel :=
  ⟨fun _ _ _ h h' => le_trans h' h⟩

/-- The ordering induced by the comparator in `get_agent_memories`:
`b.importance.partial_cmp(&a.importance).unwrap_or(Equal).then_with(|| b.timestamp.cmp(&a.timestamp))`
(importance descending, ties timestamp descending): `a` may precede `b` iff
the comparator does not answer `Greater`. -/
def memRankRel (a b : MemoryEntry) : Prop :=
  b.importance < a.importance ∨ (b.importance = a.importance ∧ b.timestamp ≤ a.timestamp)

instance : DecidableRel memRankRel := fun a b => by unfold memRankRel; infer_instance

instance : IsTotal MemoryEntry memRankRel := by
  constructor
  intro a b
  rcases lt_trichotomy a.importance b.importance with h | h | h
  · exact Or.inr (Or.inl h)
  · rcases le_total b.timestamp a.timestamp with h' | h'
    · exact Or.inl (Or.inr ⟨h.symm, h'⟩)
    · exact Or.inr (Or.inr ⟨h, h'⟩)
  · exact Or.inl (Or.inl h)

instance : IsTrans MemoryEntry memRankRel := by
  constructor
  rintro a b c (h₁ | ⟨h₁, h₁'⟩) (h₂ | ⟨h₂, h₂'⟩)
  · exact Or.inl (lt_trans h₂ h₁)
  · exact Or.inl (h₂ ▸ h₁)
  · exact Or.inl (h₁ ▸ h₂)
  · exact Or.inr ⟨h₂.trans h₁, le_trans h₂' h₁'⟩

/-- Rust `str::to_lowercase`, restricted to its ASCII behaviour (all agent
names in the verified properties are ASCII). -/
def rustToLowercase (s : String) : String := String.mk (s.data.map Char.toLower)

/-- Query `get_agent_memories(agent_name, top_k)` on a given store (the source
reads the store from disk, filters by case-insensitive agent match, sorts by
importance descending then timestamp descending, truncates to `top_k`). -/
def get_agent_memories (store : MemoryStore) (agent_name : String) (top_k : Nat) :
    List MemoryEntry :=
  ((List.insertionSort memRankRel
      (store.memories.filter
        (fun m => rustToLowercase m.agent == rustToLowercase agent_name))).take top_k)

/-- The pure mutation performed by `add_agent_memory(agent, content, importance)`:
validation, entry construction (`nowMillis`/`nowSecs` stand for the two
`SystemTime::now()` reads), push, and the 1000-entry retention policy. -/
def add_agent_memory (store : MemoryStore) (agent content : String) (importance : ℚ)
    (nowMillis : Nat) (nowSecs : Int) : Except String (MemoryStore × MemoryEntry) :=
  if agent.isEmpty || content.isEmpty then
    .error "Agent and content cannot be empty"
  else if content.utf8ByteSize > 10000 then
    .error "Content too long (max 10000 chars)"
  else
    let entry : MemoryEntry :=
      { id := "mem_" ++ toString nowMillis
        agent := agent
        content := content
        timestamp := nowSecs
        importance := clampQ importance 0 1 }
    let mems := store.memories ++ [entry]
    let mems' := if mems.length > 1000 then (List.insertionSort tsDescRel mems).take 1000 else mems
    .ok ({ store with memories := mems' }, entry)

/-- Command wrapper for `add_agent_memory`: read file, mutate, save
(`write_memory_store(&store)?` propagates a save error), return entry. -/
def add_agent_memory_cmd (file : MemoryStore) (saveErr : Option String)
    (agent content : String) (importance : ℚ) (nowMillis : Nat) (nowSecs : Int) :
    Except String MemoryEntry × MemoryStore :=
  match add_agent_memory file agent content importance nowMillis nowSecs with
  | .error e => (.error e, file)
  | .ok (st, entry) =>
    match saveErr with
    | some e => (.error e, file)
    | none => (.ok entry, st)

/-- The pure mutation performed by `add_knowledge_node(node_id, node_type, label)`. -/
def add_knowledge_node (store : MemoryStore) (node_id node_type label : String) :
    Except String (MemoryStore × KnowledgeNode) :=
  if node_id.isEmpty || label.isEmpty then
    .error "Node ID and label cannot be empty"
  else if store.graph.nodes.any (fun n => n.id == node_id) then
    .error "Node with this ID already exists"
  else
    let node : KnowledgeNode := { id := node_id, node_type := node_type, label := label }
    let nodes := store.graph.nodes ++ [node]
    let nodes' := if nodes.length > 500 then nodes.take 500 else nodes
    .ok ({ store with graph := { store.graph with nodes := nodes' } }, node)

/-- Command wrapper for `add_knowledge_node`. -/
def add_knowledge_node_cmd (file : MemoryStore) (saveErr : Option String)
    (node_id node_type label : String) : Except String KnowledgeNode × MemoryStore :=
  match add_knowledge_node file node_id node_type label with
  | .error e => (.error e, file)
  | .ok (st, node) =>
    match saveErr with
    | some e => (.error e, file)
    | none => (.ok node, st)

/-- The pure mutation performed by `add_knowledge_edge(source, target, label)`. -/
def add_knowledge_edge (store : MemoryStore) (source target label : String) :
    Except String (MemoryStore × KnowledgeEdge) :=
  if source.isEmpty || target.isEmpty || label.isEmpty then
    .error "Source, target, and label cannot be empty"
  else
    let source_exists := store.graph.nodes.any (fun n => n.id == source)
    let target_exists := store.graph.nodes.any (fun n => n.id == target)
    if !source_exists || !target_exists then
      .error "Source or target node does not exist"
    else
      let edge : KnowledgeEdge := { source := source, target := target, label := label }
      let edges := store.graph.edges ++ [edge]
      let edges' := if edges.length > 1000 then edges.take 1000 else edges
      .ok ({ store with graph := { store.graph with edges := edges' } }, edge)

/-- Command wrapper for `add_knowledge_edge`. -/
def add_knowledge_edge_cmd (file : MemoryStore) (saveErr : Option String)
    (source target label : String) : Except String KnowledgeEdge × MemoryStore :=
  match add_knowledge_edge file source target label with
  | .error e => (.error e, file)
  | .ok (st, edge) =>
    match saveErr with
    | some e => (.error e, file)
    | none => (.ok edge, st)

/-- Update, via `iter_mut().find(|r| r.id == id)` followed by a status write, the
first request whose id matches, leave everything else unchanged. -/
def updateFirstStatus : List BridgeRequest → String → String → List BridgeRequest
  | [], _, _ => []
  | r :: rs, i, st =>
    if r.id = i then { r with status := st } :: rs
    else r :: updateFirstStatus rs i st

/-- The pure mutation of `approve_request(id)`. -/
def approve_request (data : BridgeData) (id : String) : BridgeData :=
  { data with requests := updateFirstStatus data.requests id "approved" }

/-- The pure mutation of `reject_request(id)`. -/
def reject_request (data : BridgeData) (id : String) : BridgeData :=
  { data with requests := updateFirstStatus data.requests id "rejected" }

/-- Command wrapper for `approve_request` (`write_bridge_data(&data)?; Ok(data)`). -/
def approve_request_cmd (file : BridgeData) (saveErr : Option String) (id : String) :
    Except String BridgeData × BridgeData :=
  let data := approve_request file id
  match saveErr with
  | some e => (.error e, file)
  | none => (.ok data, data)

/-- Command wrapper for `reject_request`. -/
def reject_request_cmd (file : BridgeData) (saveErr : Option String) (id : String) :
    Except String BridgeData × BridgeData :=
  let data := reject_request file id
  match saveErr with
  | some e => (.error e, file)
  | none => (.ok data, data)

/-!
## Model of `serde_json` as used by `prompt_ollama_stream`

`prompt_ollama_stream` parses each line with
`serde_json::from_str::<serde_json::Value>` and then navigates with
`Value::get` / `as_str` / `as_bool`.  The JSON value type and a recursive
descent parser (fuelled, whitespace-tolerant, escape-aware, duplicate keys
overwritten as in `serde_json`'s map) model that library surface.
-/

/-- Model of `serde_json::Value`. -/
inductive Json where
  | null
  | bool (b : Bool)
  | num (raw : String)
  | str (s : String)
  | arr (elems : List Json)
  | obj (fields : List (String × Json))

/-- JSON insignificant whitespace. -/
def isJsonWs (c : Char) : Bool := c = ' ' || c = '\n' || c = '\t' || c = '\r'

/-- Drop leading JSON whitespace. -/
def skipWs : List Char → List Char
  | [] => []
  | c :: cs => if isJsonWs c then skipWs cs else c :: cs

/-- Value of a hex digit. -/
def hexVal (c : Char) : Option Nat :=
  if '0' ≤ c ∧ c ≤ '9' then some (c.toNat - '0'.toNat)
  else if 'a' ≤ c ∧ c ≤ 'f' then some (c.toNat - 'a'.toNat + 10)
  else if 'A' ≤ c ∧ c ≤ 'F' then some (c.toNat - 'A'.toNat + 10)
  else none

/-- Parse the body of a JSON string (after the opening quote), returning the
decoded characters and the input remaining after the closing quote. -/
def parseStringBody : Nat → List Char → Option (List Char × List Char)
  | 0, _ => none
  | _, [] => none
  | Nat.succ fuel, c :: cs =>
    if c = '"' then some ([], cs)
    else if c = '\\' then
      match cs with
      | [] => none
      | e :: cs' =>
        let esc : Option (Char × List Char) :=
          if e = '"' then some ('"', cs')
          else if e = '\\' then some ('\\', cs')
          else if e = '/' then some ('/', cs')
          else if e = 'n' then some ('\n', cs')
          else if e = 't' then some ('\t', cs')
          else if e = 'r' then some ('\r', cs')
          else if e = 'b' then some ('\x08', cs')
          else if e = 'f' then some ('\x0c', cs')
          else if e = 'u' then
            match cs' with
            | h1 :: h2 :: h3 :: h4 :: cs'' =>
              match hexVal h1, hexVal h2, hexVal h3, hexVal h4 with
              | some a, some b, some c3, some d =>
                let n := ((a * 16 + b) * 16 + c3) * 16 + d
                if h : n.isValidChar then some (Char.ofNatAux n h, cs'') else none
              | _, _, _, _ => none
            | _ => none
          else none
        match esc with
        | none => none
        | some (ch, rest) =>
          match parseStringBody fuel rest with
          | none => none
          | some (body, rest') => some (ch :: body, rest')
    else
      match parseStringBody fuel cs with
      | none => none
      | some (body, rest') => some (c :: body, rest')

/-- Take the maximal run of characters that can occur in a number token. -/
def spanNumChars : List Char → List Char × List Char
  | [] => ([], [])
  | c :: cs =>
    if c.isDigit || c = '-' || c = '+' || c = '.' || c = 'e' || c = 'E' then
      let (tok, rest) := spanNumChars cs
      (c :: tok, rest)
    else ([], c :: cs)

/-- Light validity check for a number token (the parser model accepts a
token iff it starts with `-` or a digit and contains a digit). -/
def numTokOk (tok : List Char) : Bool :=
  match tok with
  | [] => false
  | c :: _ => (c = '-' || c.isDigit) && tok.any Char.isDigit

/-- Consume an expected literal continuation (e.g. `rue` after `t`). -/
def dropLit : List Char → List Char → Option (List Char)
  | [], rest => some rest
  | _ :: _, [] => none
  | p :: ps, c :: cs => if c = p then dropLit ps cs else none

/-- Map insertion of `serde_json`: a duplicate key overwrites the old value. -/
def insertField (fields : List (String × Json)) (key : String) (v : Json) :
    List (String × Json) :=
  if fields.any (fun f => f.1 == key) then
    fields.map (fun f => if f.1 == key then (key, v) else f)
  else fields ++ [(key, v)]

mutual

/-- Parse one JSON value; returns the value and the remaining input. -/
def parseValue : Nat → List Char → Option (Json × List Char)
  | 0, _ => none
  | Nat.succ fuel, input =>
    match skipWs input with
    | [] => none
    | c :: cs =>
      if c = '\x7b' then
        match skipWs cs with
        | '\x7d' :: rest => some (Json.obj [], rest)
        | _ => parseObjFields fuel cs []
      else if c = '[' then
        match skipWs cs with
        | ']' :: rest => some (Json.arr [], rest)
        | _ => parseArrElems fuel cs []
      else if c = '"' then
        match parseStringBody fuel cs with
        | none => none
        | some (body, rest) => some (Json.str (String.mk body), rest)
      else if c = 't' then (dropLit ['r', 'u', 'e'] cs).map (fun r => (Json.bool true, r))
      else if c = 'f' then (dropLit ['a', 'l', 's', 'e'] cs).map (fun r => (Json.bool false, r))
      else if c = 'n' then (dropLit ['u', 'l', 'l'] cs).map (fun r => (Json.null, r))
      else
        let (tok, rest) := spanNumChars (c :: cs)
        if numTokOk tok then some (Json.num (String.mk tok), rest) else none

/-- Parse the members of a JSON object (input positioned after `\x7b`). -/
def parseObjFields : Nat → List Char → List (String × Json) → Option (Json × List Char)
  | 0, _, _ => none
  | Nat.succ fuel, cs, acc =>
    match skipWs cs with
    | '"' :: cs1 =>
      match parseStringBody fuel cs1 with
      | none => none
      | some (key, cs2) =>
        match skipWs cs2 with
        | ':' :: cs3 =>
          match parseValue fuel cs3 with
          | none => none
          | some (v, cs4) =>
            let acc' := insertField acc (String.mk key) v
            match skipWs cs4 with
            | ',' :: cs5 => parseObjFields fuel cs5 acc'
            | '\x7d' :: cs5 => some (Json.obj acc', cs5)
            | _ => none
        | _ => none
    | _ => none

/-- Parse the elements of a JSON array (input positioned after `[`). -/
def parseArrElems : Nat → List Char → List Json → Option (Json × List Char)
  | 0, _, _ => none
  | Nat.succ fuel, cs, acc =>
    match parseValue fuel cs with
    | none => none
    | some (v, cs1) =>
      match skipWs cs1 with
      | ',' :: cs2 => parseArrElems fuel cs2 (acc ++ [v])
      | ']' :: cs2 => some (Json.arr (acc ++ [v]), cs2)
      | _ => none

end

/-- Model of `serde_json::from_str::<Value>`: parse a complete JSON document; trailing
whitespace is allowed, trailing garbage is an error. -/
def parseJson (s : String) : Option Json :=
  match parseValue (2 * s.length + 2) s.data with
  | some (j, rest) => if skipWs rest = [] then some j else none
  | none => none

/-- Model of `Value::get(key)` (non-objects yield none). -/
def getField : Json → String → Option Json
  | Json.obj fields, key => (fields.find? (fun f => f.1 == key)).map (fun f => f.2)
  | _, _ => none

/-- Model of `Value::as_str`. -/
def asStr : Json → Option String
  | Json.str s => some s
  | _ => none

/-- Model of `Value::as_bool`. -/
def asBool : Json → Option Bool
  | Json.bool b => some b
  | _ => none

/-- Content extraction `json.get("message").and_then(|m| m.get("content")).and_then(|v| v.as_str())`. -/
def msgContent (j : Json) : Option String :=
  (getField j "message").bind (fun m => (getField m "content").bind asStr)

/-- Flag extraction `json.get("done").and_then(|v| v.as_bool()).unwrap_or(false)`. -/
def doneFlag (j : Json) : Bool := ((getField j "done").bind asBool).getD false

/-- Per-line processing of `prompt_ollama_stream`: parse the line; on success
extract `message.content`; emit `{chunk: content, done}` or nothing. -/
def lineEvent (line : String) : Option StreamPayload :=
  match parseJson line with
  | none => none
  | some j =>
    match msgContent j with
    | none => none
    | some content => some { chunk := content, done := doneFlag j }

/-- Split a character list at `'\n'`, keeping the (possibly empty) pieces. -/
def splitNL : List Char → List (List Char)
  | [] => [[]]
  | c :: cs =>
    if c = '\n' then [] :: splitNL cs
    else
      match splitNL cs with
      | [] => [[c]]
      | p :: ps => (c :: p) :: ps

/-- Strip one trailing `'\r'` (part of Rust `str::lines`). -/
def stripCR : List Char → List Char
  | [] => []
  | ['\r'] => []
  | c :: cs => c :: stripCR cs

/-- Rust `str::lines`: split at `\n`, strip a `\r` before each `\n`, final
line ending optional. -/
def rustLines (s : String) : List String :=
  let parts := splitNL s.data
  let front := parts.dropLast.map (fun p => String.mk (stripCR p))
  match parts.getLast? with
  | some [] => front
  | some last => front ++ [String.mk last]
  | none => []

/-- The whole `prompt_ollama_stream` read loop over the successfully decoded
UTF-8 chunks of the response body: each chunk's lines are processed
independently; the loop emits no terminal event of its own. -/
def ollamaDecode (chunks : List String) : List StreamPayload :=
  chunks.flatMap (fun c => (rustLines c).filterMap lineEvent)

/-!
## Marker-scan decoder of `prompt_gemini_stream`
-/

/-- Is `pat` a leading run of `s`? (model of Rust pattern matching at one
position). -/
def beginsWith : List Char → List Char → Bool
  | [], _ => true
  | _ :: _, [] => false
  | p :: ps, c :: cs => p = c && beginsWith ps cs

/-- Rust `str::find(pat)`: index of the first occurrence of `pat` in `s`. -/
def findSubIdx : List Char → List Char → Option Nat
  | [], pat => if beginsWith pat [] then some 0 else none
  | c :: rest, pat =>
    if beginsWith pat (c :: rest) then some 0
    else (findSubIdx rest pat).map (· + 1)

/-- One fuelled step list of Rust `str::replace`: replace non-overlapping
occurrences of `pat` left to right by `rep`. -/
def replaceSubAux : Nat → List Char → List Char → List Char → List Char
  | 0, s, _, _ => s
  | Nat.succ _, [], _, _ => []
  | Nat.succ fuel, c :: cs, pat, rep =>
    if pat ≠ [] && beginsWith pat (c :: cs) then
      rep ++ replaceSubAux fuel ((c :: cs).drop pat.length) pat rep
    else c :: replaceSubAux fuel cs pat rep

/-- Rust `str::replace(pat, rep)` (for non-empty `pat`). -/
def rustReplace (s pat rep : String) : String :=
  String.mk (replaceSubAux (s.length + 1) s.data pat.data rep.data)

/-- The marker `"text": "` scanned for by `prompt_gemini_stream` (9 characters). -/
def geminiMarker : String := "\"text\": \""

/-- Per-chunk processing of `prompt_gemini_stream`: find the first marker,
take everything up to the next quote character, apply the two unescaping
substitutions, emit `{chunk, done: false}`. -/
def geminiChunkEvent (text : String) : Option StreamPayload :=
  match findSubIdx text.data geminiMarker.data with
  | none => none
  | some start =>
    let rest := text.data.drop (start + 9)
    match findSubIdx rest ['"'] with
    | none => none
    | some stop =>
      let content := String.mk (rest.take stop)
      let unescaped := rustReplace (rustReplace content "\\n" "\n") "\\\"" "\""
      some { chunk := unescaped, done := false }

/-- The whole `prompt_gemini_stream` read loop over the successfully decoded
UTF-8 chunks, followed by the synthetic terminal event. -/
def geminiDecode (chunks : List String) : List StreamPayload :=
  chunks.filterMap geminiChunkEvent ++ [{ chunk := "", done := true }]

/-!
## Sequences of `add_agent_memory` insertions
-/

/-- The arguments of one `add_agent_memory` call (including the two
`SystemTime::now()` readings). -/
structure InsArgs where
  agent : String
  content : String
  importance : ℚ
  nowMillis : Nat
  nowSecs : Int

/-- A memory-entry insertion is valid when it passes the input validation of
`add_agent_memory`. -/
def ValidIns (a : InsArgs) : Prop :=
  a.agent.isEmpty = false ∧ a.content.isEmpty = false ∧ a.content.utf8ByteSize ≤ 10000

/-- Apply one `add_agent_memory` call to the store (the store is untouched
when the call returns an error). -/
def insStep (st : MemoryStore) (a : InsArgs) : MemoryStore :=
  match add_agent_memory st a.agent a.content a.importance a.nowMillis a.nowSecs with
  | .ok (st', _) => st'
  | .error _ => st

/-- Apply a sequence of `add_agent_memory` calls. -/
def insertAll (st : MemoryStore) (args : List InsArgs) : MemoryStore :=
  args.foldl insStep st

lemma add_agent_memory_valid (store : MemoryStore) (a : InsArgs) (h : ValidIns a) :
    ∃ st e,
      add_agent_memory store a.agent a.content a.importance a.nowMillis a.nowSecs =
        .ok (st, e) ∧
      st.memories = (if (store.memories ++ [e]).length > 1000
        then (List.insertionSort tsDescRel (store.memories ++ [e])).take 1000
        else store.memories ++ [e]) := by
  obtain ⟨h1, h2, h3⟩ := h
  unfold add_agent_memory
  rw [if_neg (by simp [h1, h2]), if_neg (by omega)]
  exact ⟨_, _, rfl, rfl⟩

lemma insStep_length (st : MemoryStore) (a : InsArgs) (h : ValidIns a) :
    (insStep st a).memories.length = min (st.memories.length + 1) 1000 := by
  obtain ⟨st', e, hok, hmem⟩ := add_agent_memory_valid st a h
  unfold insStep
  rw [hok]
  simp only [hmem]
  split
  · next hgt =>
    rw [List.length_take, List.length_insertionSort]
    simp only [List.length_append, List.length_singleton] at hgt ⊢
    omega
  · next hle =>
    simp only [List.length_append, List.length_singleton] at hle ⊢
    omega

lemma insertAll_length (args : List InsArgs) : ∀ st : MemoryStore,
    (∀ a ∈ args, ValidIns a) → st.memories.length ≤ 1000 →
    (insertAll st args).memories.length = min (st.memories.length + args.length) 1000 := by
  induction args with
  | nil =>
    intro st _ hst
    simp only [insertAll, List.foldl_nil, List.length_nil, Nat.add_zero]
    omega
  | cons a args ih =>
    intro st hv hst
    have hstep := insStep_length st a (hv a (by simp))
    have hrest := ih (insStep st a) (fun x hx => hv x (by simp [hx])) (by omega)
    simp only [insertAll, List.foldl_cons] at hrest ⊢
    rw [hrest, hstep, List.length_cons]
    omega

/-- C1: after any successful `add_agent_memory` insertion the stored
memory list has length at most 1000; whenever an insertion pushes the count
past 1000 (i.e. the store already held at least 1000 entries) the retained
entries are the first 1000 of the timestamp-descending re-sort of the pushed
list — sorted by timestamp descending, every retained entry at least as
recent as every dropped one, and retained ++ dropped a permutation of the
pushed list.  In particular, after inserting 1001 valid entries starting
from the empty store the stored count is exactly 1000. -/
theorem C1_memory_retention :
    (∀ (store : MemoryStore) (agent content : String) (imp : ℚ) (ms : Nat) (ts : Int)
        (st : MemoryStore) (e : MemoryEntry),
        add_agent_memory store agent content imp ms ts = .ok (st, e) →
        st.memories.length ≤ 1000 ∧
        (1000 ≤ store.memories.length →
          st.memories = (List.insertionSort tsDescRel (store.memories ++ [e])).take 1000 ∧
          st.memories.length = 1000 ∧
          List.Sorted tsDescRel st.memories ∧
          (∀ x ∈ st.memories,
            ∀ y ∈ (List.insertionSort tsDescRel (store.memories ++ [e])).drop 1000,
              y.timestamp ≤ x.timestamp) ∧
          List.Perm
            (st.memories ++ (List.insertionSort tsDescRel (store.memories ++ [e])).drop 1000)
            (store.memories ++ [e]))) ∧
    (∀ args : List InsArgs, (∀ a ∈ args, ValidIns a) → args.length = 1001 →
      (insertAll MemoryStore.empty args).memories.length = 1000) := by
  constructor
  · intro store agent content imp ms ts st e h
    simp only [add_agent_memory] at h
    by_cases hval : (agent.isEmpty || content.isEmpty) = true
    · rw [if_pos hval] at h
      exact Except.noConfusion h
    · rw [if_neg hval] at h
      by_cases hlong : content.utf8ByteSize > 10000
      · rw [if_pos hlong] at h
        exact Except.noConfusion h
      · rw [if_neg hlong] at h
        rw [Except.ok.injEq, Prod.mk.injEq] at h
        obtain ⟨hst, he⟩ := h
        rw [he] at hst
        by_cases hlen : (store.memories ++ [e]).length > 1000
        · rw [if_pos hlen] at hst
          have hlentake : st.memories.length = 1000 := by
            rw [← hst] at *
            rw [List.length_take, List.length_insertionSort]
            simp only [List.length_append, List.length_singleton] at hlen ⊢
            omega
          refine ⟨by omega, fun _ => ⟨by rw [← hst], hlentake, ?_, ?_, ?_⟩⟩
          · rw [← hst]
            exact List.Pairwise.sublist (List.take_sublist _ _)
              (List.sorted_insertionSort tsDescRel _)
          · rw [← hst]
            have hp := List.sorted_insertionSort tsDescRel (store.memories ++ [e])
            rw [← List.take_append_drop 1000
              (List.insertionSort tsDescRel (store.memories ++ [e])),
              List.Sorted, List.pairwise_append] at hp
            exact fun x hx y hy => hp.2.2 x hx y hy
          · rw [← hst, List.take_append_drop]
            exact List.perm_insertionSort _ _
        · rw [if_neg hlen] at hst
          have : st.memories.length = store.memories.length + 1 := by
            rw [← hst]
            simp
          refine ⟨?_, fun hge => absurd hlen ?_⟩
          · simp only [List.length_append, List.length_singleton] at hlen
            omega
          · simp only [List.length_append, List.length_singleton]
            omega
  · intro args hv hlen
    rw [insertAll_length args MemoryStore.empty hv (by simp [MemoryStore.empty]), hlen]
    simp [MemoryStore.empty]

/-- The entry produced by the concrete insertion used in the C1 witness. -/
def c1wEntry : MemoryEntry :=
  { id := "mem_1", agent := "a", content := "b", timestamp := 2, importance := clampQ 0 0 1 }

/-- The store produced by the concrete insertion used in the C1 witness. -/
def c1wStore : MemoryStore := { memories := [c1wEntry], graph := { nodes := [], edges := [] } }

/-- Witness for C1: the cap holds after a concrete insertion into the empty
store, and a concrete sequence of 1001 valid insertions ends with exactly
1000 stored entries. -/
theorem C1_memory_retention_witness :
    c1wStore.memories.length ≤ 1000 ∧
    (insertAll MemoryStore.empty
      (List.replicate 1001 ⟨"a", "b", 0, 1, 2⟩)).memories.length = 1000 :=
  ⟨(C1_memory_retention.1 MemoryStore.empty "a" "b" 0 1 2 c1wStore c1wEntry rfl).1,
   C1_memory_retention.2 _
     (fun a ha => by rw [List.eq_of_mem_replicate ha]; exact ⟨rfl, rfl, by decide⟩)
     (List.length_replicate 1001 _)⟩

/-!
## C2: `get_agent_memories`
-/

/-- Bob entry with importance 0.9 (C2 example). -/
def bobE1 : MemoryEntry :=
  { id := "m1", agent := "Bob", content := "c1", timestamp := 1, importance := 9/10 }

/-- Bob entry with importance 0.5 (C2 example). -/
def bobE2 : MemoryEntry :=
  { id := "m2", agent := "Bob", content := "c2", timestamp := 2, importance := 1/2 }

/-- Bob entry with importance 0.8 (C2 example). -/
def bobE3 : MemoryEntry :=
  { id := "m3", agent := "Bob", content := "c3", timestamp := 3, importance := 4/5 }

/-- Alice entry (C2 example). -/
def aliceE : MemoryEntry :=
  { id := "m4", agent := "Alice", content := "c4", timestamp := 4, importance := 1 }

/-- Store holding the three Bob entries and the Alice entry (C2 example). -/
def bobStore : MemoryStore :=
  { memories := [bobE1, bobE2, bobE3, aliceE], graph := { nodes := [], edges := [] } }

/-- C2: `get_agent_memories` returns exactly the case-insensitive agent
matches, in importance-descending order with ties broken by timestamp
descending, truncated to `top_k`; on the concrete example
(Bob importances 0.9/0.5/0.8, one Alice entry) `get_agent_memories "Bob" 2`
returns the 0.9 entry then the 0.8 entry. -/
theorem C2_get_agent_memories :
    (∀ (store : MemoryStore) (name : String) (k : Nat),
      ∃ sorted : List MemoryEntry,
        List.Perm sorted
          (store.memories.filter
            (fun m => rustToLowercase m.agent == rustToLowercase name)) ∧
        List.Sorted memRankRel sorted ∧
        get_agent_memories store name k = sorted.take k ∧
        (get_agent_memories store name k).length =
          min k (store.memories.countP
            (fun m => rustToLowercase m.agent == rustToLowercase name)) ∧
        (∀ m ∈ get_agent_memories store name k,
          rustToLowercase m.agent = rustToLowercase name)) ∧
    get_agent_memories bobStore "Bob" 2 = [bobE1, bobE3] := by
  constructor
  · intro store name k
    refine ⟨List.insertionSort memRankRel
      (store.memories.filter (fun m => rustToLowercase m.agent == rustToLowercase name)),
      List.perm_insertionSort _ _, List.sorted_insertionSort _ _, rfl, ?_, ?_⟩
    · rw [get_agent_memories, List.length_take, List.length_insertionSort,
        List.countP_eq_length_filter]
    · intro m hm
      have hmem : m ∈ store.memories.filter
          (fun m => rustToLowercase m.agent == rustToLowercase name) :=
        (List.mem_insertionSort _).mp (List.mem_of_mem_take hm)
      exact eq_of_beq (List.mem_filter.mp hmem).2
  · simp only [get_agent_memories, bobStore, bobE1, bobE2, bobE3, aliceE, rustToLowercase,
      List.insertionSort, List.orderedInsert, List.filter]
    norm_num [memRankRel]

/-- Witness for C2: the head entry of the concrete query matches the queried
agent name case-insensitively. -/
theorem C2_get_agent_memories_witness :
    rustToLowercase bobE1.agent = rustToLowercase "Bob" := by
  obtain ⟨sorted, _, _, _, _, hmem⟩ := C2_get_agent_memories.1 bobStore "Bob" 2
  exact hmem bobE1 (by rw [C2_get_agent_memories.2]; exact List.mem_cons_self _ _)

/-!
## C3: duplicate node ids and dangling edges are rejected
-/

lemma add_knowledge_node_dup (store : MemoryStore) (node_id node_type label : String)
    (h : ∃ n ∈ store.graph.nodes, n.id = node_id) :
    ∃ msg, add_knowledge_node store node_id node_type label = .error msg := by
  unfold add_knowledge_node
  by_cases hval : (node_id.isEmpty || label.isEmpty) = true
  · rw [if_pos hval]
    exact ⟨_, rfl⟩
  · rw [if_neg hval]
    obtain ⟨n, hn, hid⟩ := h
    rw [if_pos]
    · exact ⟨_, rfl⟩
    · rw [List.any_eq_true]
      exact ⟨n, hn, by rw [hid]; exact beq_self_eq_true _⟩

lemma add_knowledge_edge_dangling (store : MemoryStore) (source target label : String)
    (h : (∀ n ∈ store.graph.nodes, n.id ≠ source) ∨ (∀ n ∈ store.graph.nodes, n.id ≠ target)) :
    ∃ msg, add_knowledge_edge store source target label = .error msg := by
  unfold add_knowledge_edge
  by_cases hval : (source.isEmpty || target.isEmpty || label.isEmpty) = true
  · rw [if_pos hval]
    exact ⟨_, rfl⟩
  · rw [if_neg hval]
    rw [if_pos]
    · exact ⟨_, rfl⟩
    · rcases h with h | h
      · have : store.graph.nodes.any (fun n => n.id == source) = false := by
          rw [List.any_eq_false]
          intro n hn
          simpa using h n hn
        simp [this]
      · have : store.graph.nodes.any (fun n => n.id == target) = false := by
          rw [List.any_eq_false]
          intro n hn
          simpa using h n hn
        simp [this]

/-- C3: inserting a node whose id equals an existing node's id returns an
error and leaves the stored graph file unchanged; inserting an edge whose
source or target id references no existing node returns an error and adds no
edge (file unchanged) — both for every save outcome. -/
theorem C3_graph_error_handling :
    (∀ (file : MemoryStore) (saveErr : Option String) (node_id node_type label : String),
      (∃ n ∈ file.graph.nodes, n.id = node_id) →
      (∃ msg, (add_knowledge_node_cmd file saveErr node_id node_type label).1 = .error msg) ∧
      (add_knowledge_node_cmd file saveErr node_id node_type label).2 = file) ∧
    (∀ (file : MemoryStore) (saveErr : Option String) (source target label : String),
      ((∀ n ∈ file.graph.nodes, n.id ≠ source) ∨ (∀ n ∈ file.graph.nodes, n.id ≠ target)) →
      (∃ msg, (add_knowledge_edge_cmd file saveErr source target label).1 = .error msg) ∧
      (add_knowledge_edge_cmd file saveErr source target label).2 = file) := by
  constructor
  · intro file saveErr node_id node_type label h
    obtain ⟨msg, hmsg⟩ := add_knowledge_node_dup file node_id node_type label h
    unfold add_knowledge_node_cmd
    rw [hmsg]
    exact ⟨⟨msg, rfl⟩, rfl⟩
  · intro file saveErr source target label h
    obtain ⟨msg, hmsg⟩ := add_knowledge_edge_dangling file source target label h
    unfold add_knowledge_edge_cmd
    rw [hmsg]
    exact ⟨⟨msg, rfl⟩, rfl⟩

/-- Store with a single node `n1` (C3 witness). -/
def c3Store : MemoryStore :=
  { memories := [],
    graph := { nodes := [{ id := "n1", node_type := "t", label := "l" }], edges := [] } }

/-- Witness for C3: on the concrete one-node store, re-inserting id `n1`
errors and leaves the file unchanged, and an edge to the nonexistent node
`nope` errors and leaves the file unchanged. -/
theorem C3_graph_error_handling_witness :
    ((∃ msg, (add_knowledge_node_cmd c3Store none "n1" "t2" "l2").1 = .error msg) ∧
      (add_knowledge_node_cmd c3Store none "n1" "t2" "l2").2 = c3Store) ∧
    ((∃ msg, (add_knowledge_edge_cmd c3Store none "n1" "nope" "lab").1 = .error msg) ∧
      (add_knowledge_edge_cmd c3Store none "n1" "nope" "lab").2 = c3Store) :=
  ⟨C3_graph_error_handling.1 c3Store none "n1" "t2" "l2"
      ⟨{ id := "n1", node_type := "t", label := "l" }, by simp [c3Store], rfl⟩,
   C3_graph_error_handling.2 c3Store none "n1" "nope" "lab"
      (Or.inr (by intro n hn; simp [c3Store] at hn; rw [hn]; decide))⟩

/-!
## C4: graph size caps (truncation keeps the oldest entries, not the newest)
-/

/-- Amended C4: after every successful node insertion the node count is at
most 500 and the stored nodes are the first 500 of the pushed list in
insertion order (so a cap overflow drops the newest-inserted node, not the
oldest); edges are capped at 1000 the same way. -/
theorem C4_graph_caps :
    (∀ (store : MemoryStore) (node_id node_type label : String)
        (st : MemoryStore) (n : KnowledgeNode),
      add_knowledge_node store node_id node_type label = .ok (st, n) →
      st.graph.nodes.length ≤ 500 ∧
      st.graph.nodes = (store.graph.nodes ++ [n]).take 500 ∧
      st.graph.edges = store.graph.edges) ∧
    (∀ (store : MemoryStore) (source target label : String)
        (st : MemoryStore) (e : KnowledgeEdge),
      add_knowledge_edge store source target label = .ok (st, e) →
      st.graph.edges.length ≤ 1000 ∧
      st.graph.edges = (store.graph.edges ++ [e]).take 1000 ∧
      st.graph.nodes = store.graph.nodes) := by
  constructor
  · intro store node_id node_type label st n h
    simp only [add_knowledge_node] at h
    by_cases hval : (node_id.isEmpty || label.isEmpty) = true
    · rw [if_pos hval] at h
      exact Except.noConfusion h
    · rw [if_neg hval] at h
      by_cases hdup : store.graph.nodes.any (fun m => m.id == node_id) = true
      · rw [if_pos hdup] at h
        exact Except.noConfusion h
      · rw [if_neg hdup] at h
        rw [Except.ok.injEq, Prod.mk.injEq] at h
        obtain ⟨hst, hn⟩ := h
        rw [hn] at hst
        by_cases hlen : (store.graph.nodes ++ [n]).length > 500
        · rw [if_pos hlen] at hst
          refine ⟨?_, by rw [← hst], by rw [← hst]⟩
          rw [← hst]
          simp only [List.length_take]
          omega
        · rw [if_neg hlen] at hst
          refine ⟨?_, ?_, by rw [← hst]⟩
          · rw [← hst]
            simp only [List.length_append, List.length_singleton] at hlen ⊢
            omega
          · rw [← hst, List.take_of_length_le (by omega)]
  · intro store source target label st e h
    simp only [add_knowledge_edge] at h
    by_cases hval : (source.isEmpty || target.isEmpty || label.isEmpty) = true
    · rw [if_pos hval] at h
      exact Except.noConfusion h
    · rw [if_neg hval] at h
      by_cases hex : (!store.graph.nodes.any (fun m => m.id == source) ||
          !store.graph.nodes.any (fun m => m.id == target)) = true
      · rw [if_pos hex] at h
        exact Except.noConfusion h
      · rw [if_neg hex] at h
        rw [Except.ok.injEq, Prod.mk.injEq] at h
        obtain ⟨hst, he⟩ := h
        rw [he] at hst
        by_cases hlen : (store.graph.edges ++ [e]).length > 1000
        · rw [if_pos hlen] at hst
          refine ⟨?_, by rw [← hst], by rw [← hst]⟩
          rw [← hst]
          simp only [List.length_take]
          omega
        · rw [if_neg hlen] at hst
          refine ⟨?_, ?_, by rw [← hst]⟩
          · rw [← hst]
            simp only [List.length_append, List.length_singleton] at hlen ⊢
            omega
          · rw [← hst, List.take_of_length_le (by omega)]

/-- A full graph of 500 nodes labelled by their insertion index. -/
def c4Nodes : List KnowledgeNode :=
  (List.range 500).map (fun i => { id := Nat.repr i, node_type := "t", label := "l" })

/-- Store whose graph already holds 500 nodes. -/
def c4Store : MemoryStore := { memories := [], graph := { nodes := c4Nodes, edges := [] } }

/-- The 501st node inserted in the C4 counterexample. -/
def c4NewNode : KnowledgeNode := { id := "new", node_type := "ty", label := "lb" }

set_option maxRecDepth 10000 in
/-- Counterexample to C4 as stated: inserting a 501st node succeeds, yet the
stored graph still equals the previous 500 nodes — the newly inserted
(newest) node is the one dropped, while the oldest-inserted node (id `0`)
is retained, contradicting the claim that the oldest-inserted nodes are
dropped past the cap. -/
theorem C4_counterexample :
    add_knowledge_node c4Store "new" "ty" "lb" =
      .ok ({ memories := [], graph := { nodes := c4Nodes, edges := [] } }, c4NewNode) ∧
    c4NewNode ∉ c4Nodes ∧
    ({ id := "0", node_type := "t", label := "l" } : KnowledgeNode) ∈ c4Nodes := by
  refine ⟨?_, by decide, by decide⟩
  simp only [add_knowledge_node]
  rw [if_neg (by decide), if_neg (by decide)]
  have hlen : (c4Store.graph.nodes ++
      [({ id := "new", node_type := "ty", label := "lb" } : KnowledgeNode)]).length > 500 := by
    simp [c4Store, c4Nodes]
  rw [if_pos hlen]
  have htake : (c4Store.graph.nodes ++
      [({ id := "new", node_type := "ty", label := "lb" } : KnowledgeNode)]).take 500 =
      c4Nodes :=
    List.take_left' (by simp [c4Store, c4Nodes])
  rw [htake]
  rfl

/-- Store with two nodes `a`, `b` (C4 witness). -/
def c4wStore : MemoryStore :=
  { memories := [],
    graph := { nodes := [{ id := "a", node_type := "t", label := "l" },
                         { id := "b", node_type := "t", label := "l" }], edges := [] } }

/-- Witness for C4: a concrete successful node insertion and a concrete
successful edge insertion both respect the caps. -/
theorem C4_graph_caps_witness :
    (({ memories := [],
        graph := { nodes := [{ id := "a", node_type := "t", label := "l" }],
                   edges := [] } } : MemoryStore).graph.nodes.length ≤ 500) ∧
    (({ memories := [],
        graph := { nodes := c4wStore.graph.nodes,
                   edges := [{ source := "a", target := "b", label := "e" }] } } :
        MemoryStore).graph.edges.length ≤ 1000) :=
  ⟨(C4_graph_caps.1 MemoryStore.empty "a" "t" "l" _ _ rfl).1,
   (C4_graph_caps.2 c4wStore "a" "b" "e" _ _ rfl).1⟩

/-!
## C5: the line-delimited (NDJSON) decoder of `prompt_ollama_stream`
-/

/-- First NDJSON line of the C5 example. -/
def c5l1 : String := "\x7b\"message\":\x7b\"content\":\"Hi\"\x7d,\"done\":false\x7d"

/-- Second NDJSON line of the C5 example. -/
def c5l2 : String := "\x7b\"message\":\x7b\"content\":\" there\"\x7d,\"done\":true\x7d"

/-- C5: on the two-line example input the decoder emits exactly
`{Hi, false}` then `{ there, true}` (whether the two lines arrive in one
chunk or one chunk per line); a line that fails to parse, or parses without
a string `message.content`, is dropped with no event and no error; a missing
`done` field defaults to `false`; and every `done = true` event originates
from a parsed line whose own `done` flag is true — the decoder never
synthesizes a terminal event when the byte source ends. -/
theorem C5_ollama_decoder :
    ollamaDecode [c5l1 ++ "\n" ++ c5l2 ++ "\n"] =
      [{ chunk := "Hi", done := false }, { chunk := " there", done := true }] ∧
    ollamaDecode [c5l1 ++ "\n", c5l2 ++ "\n"] =
      [{ chunk := "Hi", done := false }, { chunk := " there", done := true }] ∧
    (∀ line : String, parseJson line = none → lineEvent line = none) ∧
    (∀ (line : String) (j : Json), parseJson line = some j → msgContent j = none →
      lineEvent line = none) ∧
    (∀ (line : String) (j : Json) (c : String), parseJson line = some j →
      msgContent j = some c → getField j "done" = none →
      lineEvent line = some { chunk := c, done := false }) ∧
    (∀ (chunks : List String) (e : StreamPayload), e ∈ ollamaDecode chunks → e.done = true →
      ∃ c ∈ chunks, ∃ line ∈ rustLines c, ∃ j, parseJson line = some j ∧ doneFlag j = true) := by
  refine ⟨by decide, by decide, ?_, ?_, ?_, ?_⟩
  · intro line h
    simp [lineEvent, h]
  · intro line j hp hc
    simp [lineEvent, hp, hc]
  · intro line j c hp hc hd
    simp [lineEvent, doneFlag, hp, hc, hd]
  · intro chunks e he hdone
    simp only [ollamaDecode, List.mem_flatMap] at he
    obtain ⟨c, hc, he⟩ := he
    rw [List.mem_filterMap] at he
    obtain ⟨line, hline, hev⟩ := he
    refine ⟨c, hc, line, hline, ?_⟩
    unfold lineEvent at hev
    cases hp : parseJson line with
    | none => rw [hp] at hev; exact Option.noConfusion hev
    | some j =>
      simp only [hp] at hev
      cases hcont : msgContent j with
      | none =>
        simp only [hcont] at hev
        exact Option.noConfusion hev
      | some content =>
        simp only [hcont, Option.some.injEq] at hev
        refine ⟨j, rfl, ?_⟩
        rw [← hev] at hdone
        exact hdone

/-- Witness for C5: a concrete unparseable line is silently dropped. -/
theorem C5_ollama_decoder_witness : lineEvent "oops" = none :=
  C5_ollama_decoder.2.2.1 "oops" rfl

/-!
## C6: the marker-scan decoder of `prompt_gemini_stream`
-/

lemma geminiChunkEvent_done (text : String) (ev : StreamPayload)
    (h : geminiChunkEvent text = some ev) : ev.done = false := by
  simp only [geminiChunkEvent] at h
  cases h1 : findSubIdx text.data geminiMarker.data with
  | none => rw [h1] at h; exact Option.noConfusion h
  | some start =>
    simp only [h1] at h
    cases h2 : findSubIdx (text.data.drop (start + 9)) ['"'] with
    | none =>
      simp only [h2] at h
      exact Option.noConfusion h
    | some stop =>
      simp only [h2, Option.some.injEq] at h
      rw [← h]

lemma beginsWith_append (p l : List Char) : beginsWith p (p ++ l) = true := by
  induction p with
  | nil => rfl
  | cons c cs ih => simp [beginsWith, ih]

lemma findSubIdx_of_begins (s pat : List Char) (h : beginsWith pat s = true) :
    findSubIdx s pat = some 0 := by
  cases s with
  | nil => simp [findSubIdx, h]
  | cons c cs => simp [findSubIdx, h]

lemma findSubIdx_quote (l t : List Char) (h : ∀ c ∈ l, c ≠ '"') :
    findSubIdx (l ++ '"' :: t) ['"'] = some l.length := by
  induction l with
  | nil => simp [findSubIdx, beginsWith]
  | cons c cs ih =>
    have hne := h c (List.mem_cons_self _ _)
    have hc : ¬('"' : Char) = c := fun e => hne e.symm
    simp [findSubIdx, beginsWith, hc,
      ih (fun x hx => h x (List.mem_cons_of_mem _ hx))]

lemma string_mk_data (s : String) : String.mk s.data = s := rfl

/-- Amended C6: every per-chunk event carries `done = false`; the decoder's
output is the per-chunk events (each delivered chunk scanned independently)
followed by exactly one synthetic terminal event `{"", true}`, which is the
last event; and on a chunk of the form `marker ++ v ++ quote ++ w` where the
value `v` contains no quote character, the decoder takes everything up to
the next **quote character — escaped or not** (the code's `rest.find('"')`
does not skip backslash-escaped quotes), applies exactly the two
substitutions (escaped newline to newline, escaped quote to quote), and
emits the result with `done = false`. -/
theorem C6_gemini_decoder :
    (∀ (text : String) (ev : StreamPayload), geminiChunkEvent text = some ev →
      ev.done = false) ∧
    (∀ chunks : List String,
      geminiDecode chunks = chunks.filterMap geminiChunkEvent ++
        [{ chunk := "", done := true }] ∧
      (geminiDecode chunks).getLast? = some { chunk := "", done := true } ∧
      (∀ e ∈ (geminiDecode chunks).dropLast, e.done = false)) ∧
    (∀ v w : String, (∀ c ∈ v.data, c ≠ '"') →
      geminiChunkEvent (geminiMarker ++ v ++ "\"" ++ w) =
        some { chunk := rustReplace (rustReplace v "\\n" "\n") "\\\"" "\"",
               done := false }) := by
  refine ⟨geminiChunkEvent_done, ?_, ?_⟩
  · intro chunks
    refine ⟨rfl, ?_, ?_⟩
    · unfold geminiDecode
      exact List.getLast?_concat _
    · unfold geminiDecode
      rw [List.dropLast_concat]
      intro e he
      rw [List.mem_filterMap] at he
      obtain ⟨c, _, hev⟩ := he
      exact geminiChunkEvent_done c e hev
  · intro v w hv
    have hdata : (geminiMarker ++ v ++ "\"" ++ w).data
        = geminiMarker.data ++ (v.data ++ '"' :: w.data) := by
      simp [String.data_append]
    have h9 : geminiMarker.data.length = 0 + 9 := by decide
    simp only [geminiChunkEvent, hdata,
      findSubIdx_of_begins (geminiMarker.data ++ (v.data ++ '"' :: w.data)) geminiMarker.data
        (beginsWith_append _ _),
      List.drop_left' h9,
      findSubIdx_quote v.data w.data hv,
      List.take_left, string_mk_data]

/-- Chunk whose text value contains an escaped quote (C6 counterexample). -/
def c6Chunk : String := "\x7b\"text\": \"a\\\"b\"\x7d"

/-- Counterexample to C6 as stated: on the chunk `\x7b"text": "a\"b"\x7d`
(text value `a\"b`, whose unescape is `a"b`) the decoder stops at the
escaped quote and emits chunk `a\` instead of `a"b`: the scan runs to the
next quote character, not the next **unescaped** quote. -/
theorem C6_counterexample :
    geminiDecode [c6Chunk] =
      [{ chunk := "a\\", done := false }, { chunk := "", done := true }] ∧
    ("a\\" : String) ≠ "a\"b" :=
  ⟨by decide, by decide⟩

/-- Witness for C6: concrete extraction of an escaped-newline value. -/
theorem C6_gemini_decoder_witness :
    geminiChunkEvent (geminiMarker ++ "hi\\nthere" ++ "\"" ++ "rest") =
      some { chunk := rustReplace (rustReplace "hi\\nthere" "\\n" "\n") "\\\"" "\"",
             done := false } :=
  C6_gemini_decoder.2.2 "hi\\nthere" "rest" (by decide)

/-!
## C8: save failures are propagated, not swallowed
-/

/-- Bridge file with one pending request (C8 counterexample). -/
def c8Bridge : BridgeData :=
  { requests := [{ id := "r1", message := "m", status := "pending" }], auto_approve := true }

/-- The entry the C8 mutation computes in memory before the failed save. -/
def c8Entry : MemoryEntry :=
  { id := "mem_1", agent := "a", content := "b", timestamp := 2, importance := clampQ 0 0 1 }

/-- Counterexample to C8 as stated: when the save step fails, the mutator
does **not** return the in-memory result of the mutation — the `?` operator
on the save propagates the I/O error, so the caller receives `Err` (here for
both `add_agent_memory` and `approve_request`), not the computed entry or
the updated queue; the file is left unchanged. -/
theorem C8_counterexample :
    (add_agent_memory_cmd MemoryStore.empty (some "disk full") "a" "b" 0 1 2).1 =
      .error "disk full" ∧
    (add_agent_memory_cmd MemoryStore.empty (some "disk full") "a" "b" 0 1 2).1 ≠
      .ok c8Entry ∧
    (add_agent_memory_cmd MemoryStore.empty (some "disk full") "a" "b" 0 1 2).2 =
      MemoryStore.empty ∧
    (approve_request_cmd c8Bridge (some "disk full") "r1").1 = .error "disk full" ∧
    (approve_request_cmd c8Bridge (some "disk full") "r1").1 ≠
      .ok (approve_request c8Bridge "r1") :=
  ⟨rfl, fun h => Except.noConfusion h, rfl, rfl, fun h => Except.noConfusion h⟩

/-- Amended C8: if the save step fails with I/O error `err`, the mutator
returns `Err(err)` to its immediate caller — the in-memory result of the
mutation is *not* returned — and the stored file is unchanged, so the
logical mutation is discarded entirely. -/
theorem C8_save_failure :
    (∀ (file : MemoryStore) (err agent content : String) (imp : ℚ) (ms : Nat) (ts : Int),
      (add_agent_memory_cmd file (some err) agent content imp ms ts).2 = file ∧
      (∀ st entry, add_agent_memory file agent content imp ms ts = .ok (st, entry) →
        (add_agent_memory_cmd file (some err) agent content imp ms ts).1 = .error err)) ∧
    (∀ (file : BridgeData) (err id : String),
      (approve_request_cmd file (some err) id).1 = .error err ∧
      (approve_request_cmd file (some err) id).2 = file ∧
      (reject_request_cmd file (some err) id).1 = .error err ∧
      (reject_request_cmd file (some err) id).2 = file) := by
  constructor
  · intro file err agent content imp ms ts
    constructor
    · unfold add_agent_memory_cmd
      cases ht : add_agent_memory file agent content imp ms ts with
      | error e => rfl
      | ok p => cases p; rfl
    · intro st entry h
      unfold add_agent_memory_cmd
      rw [h]
  · intro file err id
    exact ⟨rfl, rfl, rfl, rfl⟩

/-- Witness for C8: the amended behaviour at a concrete store, entry and
error message. -/
theorem C8_save_failure_witness :
    (add_agent_memory_cmd MemoryStore.empty (some "disk full") "a" "b" 0 1 2).2 =
      MemoryStore.empty ∧
    (add_agent_memory_cmd MemoryStore.empty (some "disk full") "a" "b" 0 1 2).1 =
      .error "disk full" ∧
    (approve_request_cmd c8Bridge (some "disk full") "r1").1 = .error "disk full" :=
  ⟨(C8_save_failure.1 MemoryStore.empty "disk full" "a" "b" 0 1 2).1,
   (C8_save_failure.1 MemoryStore.empty "disk full" "a" "b" 0 1 2).2
     ({ memories := [c8Entry], graph := { nodes := [], edges := [] } }) c8Entry rfl,
   (C8_save_failure.2 c8Bridge "disk full" "r1").1⟩

/-!
## C9: approve/reject sequences — the last call referencing an id wins
-/

/-- One approval-queue command call. -/
inductive BridgeCall where
  | approve (id : String)
  | reject (id : String)
deriving DecidableEq, Repr

/-- Id referenced by a call. -/
def callId : BridgeCall → String
  | .approve i => i
  | .reject i => i

/-- Status written by a call. -/
def callStatus : BridgeCall → String
  | .approve _ => "approved"
  | .reject _ => "rejected"

/-- Apply one call (the source's `approve_request`/`reject_request`). -/
def applyCall (d : BridgeData) : BridgeCall → BridgeData
  | .approve i => approve_request d i
  | .reject i => reject_request d i

/-- Apply a sequence of calls left to right. -/
def applyCalls (d : BridgeData) (cs : List BridgeCall) : BridgeData :=
  cs.foldl applyCall d

/-- The status predicted by the claim: the status written by the last call
of `cs` that references `i`, or `init` when no call does. -/
def lastStatus (init : String) (cs : List BridgeCall) (i : String) : String :=
  match cs.reverse.find? (fun c => callId c == i) with
  | some c => callStatus c
  | none => init

lemma map_eq_self_of_eq {α : Type _} (f : α → α) (l : List α) (h : ∀ x ∈ l, f x = x) :
    l.map f = l := by
  induction l with
  | nil => rfl
  | cons a as ih =>
    rw [List.map_cons, h a (List.mem_cons_self _ _), ih (fun x hx => h x (List.mem_cons_of_mem _ hx))]

lemma updateFirst_ids (reqs : List BridgeRequest) (i st : String) :
    (updateFirstStatus reqs i st).map (fun r => r.id) = reqs.map (fun r => r.id) := by
  induction reqs with
  | nil => rfl
  | cons r rs ih =>
    unfold updateFirstStatus
    by_cases hr : r.id = i
    · rw [if_pos hr]
      rfl
    · rw [if_neg hr, List.map_cons, List.map_cons, ih]

lemma updateFirst_eq_map (reqs : List BridgeRequest) (i st : String)
    (hnd : (reqs.map (fun r => r.id)).Nodup) :
    updateFirstStatus reqs i st =
      reqs.map (fun r => if r.id = i then { r with status := st } else r) := by
  induction reqs with
  | nil => rfl
  | cons r rs ih =>
    rw [List.map_cons, List.nodup_cons] at hnd
    obtain ⟨hnotin, hnd'⟩ := hnd
    unfold updateFirstStatus
    by_cases hr : r.id = i
    · rw [if_pos hr, List.map_cons, if_pos hr]
      congr 1
      symm
      apply map_eq_self_of_eq
      intro x hx
      rw [if_neg]
      intro hxid
      have hmem : x.id ∈ List.map (fun r => r.id) rs := List.mem_map_of_mem _ hx
      rw [hxid, ← hr] at hmem
      exact hnotin hmem
    · rw [if_neg hr, List.map_cons, if_neg hr, ih hnd']

lemma updateFirst_no_match (reqs : List BridgeRequest) (i st : String)
    (h : ∀ r ∈ reqs, r.id ≠ i) : updateFirstStatus reqs i st = reqs := by
  induction reqs with
  | nil => rfl
  | cons r rs ih =>
    unfold updateFirstStatus
    rw [if_neg (h r (List.mem_cons_self _ _)),
      ih (fun x hx => h x (List.mem_cons_of_mem _ hx))]

lemma lastStatus_cons (init : String) (c : BridgeCall) (cs : List BridgeCall) (i : String) :
    lastStatus init (c :: cs) i =
      lastStatus (if callId c = i then callStatus c else init) cs i := by
  unfold lastStatus
  rw [List.reverse_cons, List.find?_append]
  cases hfind : cs.reverse.find? (fun c' => callId c' == i) with
  | some c' => simp
  | none =>
    simp only [Option.none_or]
    by_cases hc : callId c = i
    · rw [List.find?_cons_of_pos _ (by simp [hc]), if_pos hc]
    · rw [List.find?_cons_of_neg _ (by simp [hc]), if_neg hc]
      rfl

lemma applyCall_requests (d : BridgeData) (c : BridgeCall) :
    (applyCall d c).requests = updateFirstStatus d.requests (callId c) (callStatus c) := by
  cases c <;> rfl

lemma applyCalls_requests (cs : List BridgeCall) : ∀ d : BridgeData,
    (d.requests.map (fun r => r.id)).Nodup →
    (applyCalls d cs).requests =
      d.requests.map (fun r => { r with status := lastStatus r.status cs r.id }) := by
  induction cs with
  | nil =>
    intro d _
    exact (List.map_id d.requests).symm
  | cons c cs ih =>
    intro d hnd
    have hids : ((applyCall d c).requests.map (fun r => r.id)) =
        d.requests.map (fun r => r.id) := by
      rw [applyCall_requests, updateFirst_ids]
    have ih' := ih (applyCall d c) (by rw [hids]; exact hnd)
    simp only [applyCalls, List.foldl_cons] at ih' ⊢
    rw [ih', applyCall_requests, updateFirst_eq_map _ _ _ hnd, List.map_map]
    apply List.map_congr_left
    intro r _
    by_cases hid : r.id = callId c
    · simp only [Function.comp, if_pos hid, lastStatus_cons, if_pos hid.symm]
    · have hcc : ¬callId c = r.id := fun h => hid h.symm
      simp only [Function.comp, if_neg hid, lastStatus_cons, if_neg hcc]

/-- C9: starting from a queue with unique ids whose requests are all
`pending`, after any sequence of approve/reject calls each request's status
is exactly the status written by the last call that referenced its id — or
`pending` when no call did — and a call whose id matches no request leaves
the queue unchanged. -/
theorem C9_last_call_wins (d : BridgeData) (cs : List BridgeCall)
    (hnd : (d.requests.map (fun r => r.id)).Nodup)
    (hpend : ∀ r ∈ d.requests, r.status = "pending") :
    (applyCalls d cs).requests =
      d.requests.map (fun r => { r with status := lastStatus "pending" cs r.id }) ∧
    (∀ i, (∀ r ∈ d.requests, r.id ≠ i) →
      applyCall d (.approve i) = d ∧ applyCall d (.reject i) = d) := by
  constructor
  · rw [applyCalls_requests cs d hnd]
    apply List.map_congr_left
    intro r hr
    rw [hpend r hr]
  · intro i h
    constructor <;>
      simp [applyCall, approve_request, reject_request, updateFirst_no_match _ _ _ h]

/-- Queue with two pending requests (C9 witness). -/
def c9Data : BridgeData :=
  { requests := [{ id := "r1", message := "m1", status := "pending" },
                 { id := "r2", message := "m2", status := "pending" }],
    auto_approve := true }

/-- Concrete call sequence for the C9 witness: `r1` is approved, then
rejected; `zz` matches no request. -/
def c9Calls : List BridgeCall := [.approve "r1", .reject "r1", .approve "zz"]

/-- Witness for C9: the concrete two-request queue after the concrete call
sequence carries exactly the last-call statuses. -/
theorem C9_last_call_wins_witness :
    (applyCalls c9Data c9Calls).requests =
      c9Data.requests.map (fun r => { r with status := lastStatus "pending" c9Calls r.id }) :=
  (C9_last_call_wins c9Data c9Calls (by decide) (by decide)).1

/-!
## C10: importance clamping and the content length bound
-/

/-- Content of 10001 bytes (C10 counterexample). -/
def c10Content : String := String.mk (List.replicate 10001 'a')

lemma utf8Size_go_replicate (n : Nat) :
    String.utf8ByteSize.go (List.replicate n 'a') = n := by
  induction n with
  | zero => rfl
  | succ k ih =>
    rw [List.replicate_succ]
    show String.utf8ByteSize.go (List.replicate k 'a') + ('a').utf8Size = k + 1
    rw [ih, show ('a').utf8Size = 1 from rfl]

lemma c10Content_bytes : c10Content.utf8ByteSize = 10001 :=
  utf8Size_go_replicate 10001

lemma c10Content_ne_empty : c10Content.isEmpty = false := by
  have h := c10Content_bytes
  simp only [String.isEmpty, String.endPos, h]
  decide

/-- Counterexample to C10 as stated: a call with non-empty agent and
non-empty content is rejected when the content exceeds 10000 bytes, so "for
every call with non-empty agent and content ... the call succeeds" is false. -/
theorem C10_counterexample :
    add_agent_memory MemoryStore.empty "agentA" c10Content 0 1 2 =
      .error "Content too long (max 10000 chars)" ∧
    ("agentA" : String).isEmpty = false ∧ c10Content.isEmpty = false := by
  refine ⟨?_, rfl, c10Content_ne_empty⟩
  unfold add_agent_memory
  rw [if_neg (by rw [c10Content_ne_empty]; decide), if_pos (by rw [c10Content_bytes]; omega)]

/-- Amended C10: for every call with non-empty agent and non-empty content
of at most 10000 bytes, and **any** importance value (including values below
0 or above 1), the call succeeds and the returned entry's importance is the
given importance clamped to `[0,1]`; an out-of-range importance is never
rejected as an error. -/
theorem C10_importance_clamped :
    ∀ (store : MemoryStore) (agent content : String) (imp : ℚ) (ms : Nat) (ts : Int),
      agent.isEmpty = false → content.isEmpty = false → content.utf8ByteSize ≤ 10000 →
      ∃ st e, add_agent_memory store agent content imp ms ts = .ok (st, e) ∧
        e.importance = clampQ imp 0 1 ∧
        0 ≤ e.importance ∧ e.importance ≤ 1 ∧
        (imp < 0 → e.importance = 0) ∧ (1 < imp → e.importance = 1) ∧
        (0 ≤ imp → imp ≤ 1 → e.importance = imp) := by
  intro store agent content imp ms ts h1 h2 h3
  have k1 : 0 ≤ clampQ imp 0 1 := by
    unfold clampQ
    split_ifs <;> linarith
  have k2 : clampQ imp 0 1 ≤ 1 := by
    unfold clampQ
    split_ifs <;> linarith
  have k3 : imp < 0 → clampQ imp 0 1 = 0 := by
    intro h
    unfold clampQ
    rw [if_pos h]
  have k4 : 1 < imp → clampQ imp 0 1 = 1 := by
    intro h
    unfold clampQ
    rw [if_neg (by linarith), if_pos h]
  have k5 : 0 ≤ imp → imp ≤ 1 → clampQ imp 0 1 = imp := by
    intro h h'
    unfold clampQ
    rw [if_neg (by linarith), if_neg (by linarith)]
  unfold add_agent_memory
  rw [if_neg (by simp [h1, h2]), if_neg (by omega)]
  exact ⟨_, _, rfl, rfl, k1, k2, k3, k4, k5⟩

/-- Witness for C10: a concrete call with importance 2 succeeds and stores
importance 1. -/
theorem C10_importance_clamped_witness :
    ∃ st e, add_agent_memory MemoryStore.empty "a" "b" 2 1 2 = .ok (st, e) ∧
      e.importance = clampQ 2 0 1 ∧
      0 ≤ e.importance ∧ e.importance ≤ 1 ∧
      ((2 : ℚ) < 0 → e.importance = 0) ∧ ((1 : ℚ) < 2 → e.importance = 1) ∧
      ((0 : ℚ) ≤ 2 → (2 : ℚ) ≤ 1 → e.importance = 2) :=
  C10_importance_clamped MemoryStore.empty "a" "b" 2 1 2 rfl rfl (by decide)
